import Mathlib

/-!
Verification of the playback session controller of the Top-TV-HD-Player
repository. The repository contains two variants of the same React
component: src/components/VideoPlayer.tsx (variant `tsx`) and
src/unnamed/part_000 (variant `p0`). Both implement an async play/pause
serializer (`safePlay` and `safePause` around a single `playPromiseRef`
slot), an HLS session manager (`initPlayer` with a fatal-error recovery
handler), and a controls auto-hide timer.

The embedding models the single-threaded JavaScript event loop directly:
sink play promises are entries of a list carrying a settlement status and
an ordered waiter list; `await` on a pending promise registers a waiter;
settling a promise moves its waiters, in registration order, onto a FIFO
microtask queue; external events (top-level calls, promise settlements,
engine events) are steps of a labelled transition system. Each suspension
point of the source functions becomes an explicit continuation.
-/

namespace TopTV

/-- The two source variants of the component. -/
inductive Variant
  | tsx
  | p0
deriving DecidableEq, Repr

/-- Settlement outcome of a sink play promise. `abortError` and
`notAllowedError` model the DOMException names tested in the catch
blocks of `safePlay`. -/
inductive Outcome
  | fulfilled
  | abortError
  | notAllowedError
  | otherError
deriving DecidableEq, Repr

/-- Status of a promise: unsettled or settled with an outcome. -/
inductive PStatus
  | pending
  | settled (o : Outcome)
deriving DecidableEq, Repr

/-- Rejection handlers attached via `.catch` to a `safePlay` call in the
MANIFEST_PARSED handlers: `showCtrls` for the tsx variant
(`setShowControls(true)`) and `muteRetry` for the p0 variant
(`video.muted = true; safePlay()`). -/
inductive Handler
  | showCtrls
  | muteRetry
deriving DecidableEq, Repr

/-- Suspended continuations of the source functions, each carrying the id
of the promise being awaited. `kPlayPrior` is `safePlay` suspended at
`await playPromiseRef.current` (the prior-promise await inside the try
block); `kPlayOwn` is `safePlay` suspended at `await promise` on its own
freshly issued play promise; `kPause` is `safePause` suspended at its
`await playPromiseRef.current`. The optional handler is the `.catch`
attached to the `safePlay` call by its caller. -/
inductive K
  | kPlayPrior (h : Option Handler) (p : Nat)
  | kPlayOwn (h : Option Handler) (p : Nat)
  | kPause (p : Nat)
deriving DecidableEq, Repr

/-- The promise id a continuation is waiting on. -/
def K.pid : K → Nat
  | .kPlayPrior _ p => p
  | .kPlayOwn _ p => p
  | .kPause p => p

/-- Microtasks: resuming a suspended continuation with the outcome of the
promise it awaited, or running a `.catch` reaction of a rejected
`safePlay` promise. -/
inductive MT
  | resume (k : K) (o : Outcome)
  | onReject (h : Handler) (e : Outcome)
deriving DecidableEq, Repr

/-- One sink play promise: its settlement status and its registered
waiters in registration order. -/
structure PromInfo where
  status : PStatus
  waiters : List K
deriving DecidableEq, Repr

/-- Error categories of the HLS engine (`Hls.ErrorTypes`). -/
inductive ErrT
  | network
  | media
  | other
deriving DecidableEq, Repr

/-- Events emitted by an engine instance: `MANIFEST_PARSED` and `ERROR`
with a fatality flag and a category. -/
inductive EngEv
  | manifestParsed
  | errorEv (fatal : Bool) (t : ErrT)
deriving DecidableEq, Repr

/-- Observable trace events: calls issued to the media sink and to engine
instances, console logging, and settlement of the promises returned by
`safePlay` and `safePause` themselves. -/
inductive Ev
  | sinkPlay (p : Nat)
  | sinkPause
  | logError (e : Outcome)
  | logInfo
  | warnFatal
  | playResolved
  | playRejected (e : Outcome)
  | pauseResolved
  | engineDestroyed (i : Nat)
  | engineCreated (i : Nat)
  | loadSource (i : Nat)
  | attachMedia (i : Nat)
  | startLoad (i : Nat)
  | recoverMediaError (i : Nat)
deriving DecidableEq, Repr

/-- State of one player instance. `promises` holds every sink play
promise ever created, indexed by id; `queue` is the FIFO microtask queue;
`slot` is `playPromiseRef.current`; `engines` records, per engine id,
whether that engine has been destroyed; `current` is `hlsRef.current`. -/
structure St where
  promises : List PromInfo
  queue : List MT
  slot : Option Nat
  videoAttached : Bool
  sinkMuted : Bool
  showControls : Bool
  isPlaying : Bool
  isBuffering : Bool
  hlsReady : Bool
  engines : List Bool
  current : Option Nat
  trace : List Ev
deriving DecidableEq, Repr

/-- Append trace events. -/
def emit (s : St) (es : List Ev) : St :=
  { s with trace := s.trace ++ es }

/-- Enqueue one microtask at the back of the queue. -/
def enq (s : St) (m : MT) : St :=
  { s with queue := s.queue ++ [m] }

/-- Register a waiter on promise `p` (used only while `p` is pending). -/
def addWaiter (s : St) (p : Nat) (k : K) : St :=
  match s.promises[p]? with
  | some pi => { s with promises := s.promises.set p ⟨pi.status, pi.waiters ++ [k]⟩ }
  | none => s

/-- The play-issuing segment of `safePlay`:
`const promise = video.play(); playPromiseRef.current = promise;
await promise;` — a fresh pending promise is created by the sink call,
recorded in the slot, and the function suspends on it with `kPlayOwn`.
No suspension point occurs inside this segment. -/
def issuePlay (h : Option Handler) (s : St) : St :=
  let n := s.promises.length
  { s with
    promises := s.promises ++ [⟨PStatus.pending, [K.kPlayOwn h n]⟩],
    slot := some n,
    trace := s.trace ++ [Ev.sinkPlay n] }

/-- Console output of the `safePlay` catch block of the tsx variant:
`if (error.name !== AbortError && error.name !== NotAllowedError)
console.error(...)`. -/
def tsxCatchLog (e : Outcome) : List Ev :=
  if e = Outcome.abortError ∨ e = Outcome.notAllowedError then []
  else [Ev.logError e]

/-- Console output of the `safePlay` catch block of the p0 variant:
`if (error.name === AbortError) console.log(...) else console.error(...)`. -/
def p0CatchLog (e : Outcome) : List Ev :=
  if e = Outcome.abortError then [Ev.logInfo] else [Ev.logError e]

/-- The catch block of `safePlay`, entered when either awaited promise
rejects with `e`. Variant tsx: clear the slot, log conditionally, and
rethrow — the promise returned by `safePlay` rejects, which fires the
`.catch` handler `h` of the caller when present. Variant p0: log, clear
the slot, and complete normally — the returned promise fulfills and any
`.catch` handler never fires. -/
def catchPlay (v : Variant) (h : Option Handler) (e : Outcome) (s : St) : St :=
  match v with
  | .tsx =>
      let s1 := emit { s with slot := none } (tsxCatchLog e ++ [Ev.playRejected e])
      match h with
      | some hh => enq s1 (MT.onReject hh e)
      | none => s1
  | .p0 =>
      emit { (emit s (p0CatchLog e)) with slot := none } [Ev.playResolved]

/-- Synchronous prefix of a `safePlay` call. If no sink is attached
(`if (!video) return`), the call completes at once. Otherwise, if the
slot holds a promise, `safePlay` awaits it: a waiter is registered when
it is still pending, or the continuation is enqueued immediately when it
has already settled. With an empty slot the play request is issued
directly. -/
def invokePlay (v : Variant) (h : Option Handler) (s : St) : St :=
  if s.videoAttached = false then emit s [Ev.playResolved]
  else
    match s.slot with
    | some p =>
        match s.promises[p]? with
        | some pi =>
            match pi.status with
            | PStatus.pending => addWaiter s p (K.kPlayPrior h p)
            | PStatus.settled o => enq s (MT.resume (K.kPlayPrior h p) o)
        | none => issuePlay h s
    | none => issuePlay h s

/-- Synchronous prefix of a `safePause` call. If no sink is attached the
call completes at once. If the slot holds a promise, `safePause` awaits
it before pausing; otherwise `video.pause()` is called immediately and
the call completes. -/
def invokePause (s : St) : St :=
  if s.videoAttached = false then emit s [Ev.pauseResolved]
  else
    match s.slot with
    | some p =>
        match s.promises[p]? with
        | some pi =>
            match pi.status with
            | PStatus.pending => addWaiter s p (K.kPause p)
            | PStatus.settled o => enq s (MT.resume (K.kPause p) o)
        | none => emit s [Ev.sinkPause, Ev.pauseResolved]
    | none => emit s [Ev.sinkPause, Ev.pauseResolved]

/-- `if (hlsRef.current) { hlsRef.current.destroy(); hlsRef.current = null; }` -/
def destroyCurrent (s : St) : St :=
  match s.current with
  | some i =>
      { s with engines := s.engines.set i true, current := none,
               trace := s.trace ++ [Ev.engineDestroyed i] }
  | none => s

/-- `const hls = new Hls(config); hls.loadSource(src);
hls.attachMedia(video); hlsRef.current = hls;` — a fresh engine id is
allocated (ids grow monotonically with every creation). -/
def createEngine (s : St) : St :=
  let n := s.engines.length
  { s with engines := s.engines ++ [false], current := some n,
           trace := s.trace ++ [Ev.engineCreated n, Ev.loadSource n, Ev.attachMedia n] }

/-- `initPlayer`: early return unless the HLS library is ready and a sink
is attached (`if (!hlsReady || !videoRef.current) return`), then destroy
any current engine and create, load and attach a fresh one.
`Hls.isSupported()` is modelled as true. -/
def initPlayer (s : St) : St :=
  if s.hlsReady = false ∨ s.videoAttached = false then s
  else createEngine (destroyCurrent s)

/-- The `.catch` handler attached to the `safePlay()` call in the
MANIFEST_PARSED handler of each variant. -/
def manifestHandler : Variant → Handler
  | .tsx => Handler.showCtrls
  | .p0 => Handler.muteRetry

/-- The p0 variant logs `console.warn` on every fatal engine error; the
tsx variant does not. -/
def warnOf : Variant → List Ev
  | .tsx => []
  | .p0 => [Ev.warnFatal]

/-- An engine id is live when it has been created and not destroyed.
Event handlers are registered on a specific engine instance and
`destroy()` detaches them, so only live engines deliver events. -/
def engineLive (s : St) (i : Nat) : Bool :=
  s.engines[i]? = some false

/-- Dispatch of an engine event to the handlers registered in
`initPlayer`. MANIFEST_PARSED invokes `safePlay()` with the variant
specific `.catch`. A fatal ERROR is classified by category: network calls
`hls.startLoad()`, media calls `hls.recoverMediaError()`, anything else
re-runs `initPlayer()`. Non-fatal errors do nothing. -/
def dispatchEngine (v : Variant) (i : Nat) (ev : EngEv) (s : St) : St :=
  if engineLive s i = false then s
  else
    match ev with
    | EngEv.manifestParsed => invokePlay v (some (manifestHandler v)) s
    | EngEv.errorEv fatal t =>
        if fatal = false then s
        else
          match t with
          | ErrT.network => emit (emit s (warnOf v)) [Ev.startLoad i]
          | ErrT.media => emit (emit s (warnOf v)) [Ev.recoverMediaError i]
          | ErrT.other => initPlayer (emit s (warnOf v))

/-- The environment settles a pending sink play promise with outcome `o`:
the status is recorded and every registered waiter is moved, in
registration order, onto the microtask queue. Settling a promise twice
or settling an unknown id has no effect. -/
def settleProm (p : Nat) (o : Outcome) (s : St) : St :=
  match s.promises[p]? with
  | some pi =>
      match pi.status with
      | PStatus.pending =>
          { s with promises := s.promises.set p ⟨PStatus.settled o, []⟩,
                   queue := s.queue ++ pi.waiters.map (fun k => MT.resume k o) }
      | PStatus.settled _ => s
  | none => s

/-- Sink lifecycle events driving the React state listeners registered in
the mount effect. -/
inductive SinkEv
  | evPlay
  | evPause
  | evWaiting
  | evPlaying
deriving DecidableEq, Repr

/-- External (macrotask-level) events: top-level `safePlay` and
`safePause` calls (the `togglePlay` paths), environment-controlled
settlement of a sink play promise, `refreshStream`, an engine event, the
HLS library poll succeeding, and sink lifecycle events. -/
inductive XEv
  | callPlay
  | callPause
  | settle (p : Nat) (o : Outcome)
  | refresh
  | engineEvent (i : Nat) (ev : EngEv)
  | hlsArrived
  | sink (e : SinkEv)
deriving DecidableEq, Repr

/-- Step on an external event. `refresh` is `refreshStream`: `initPlayer`
followed by the `setShowControls(true)` part of `handleActivity` (the
timer part lives in the separate timer model below). -/
def stepX (v : Variant) (s : St) : XEv → St
  | XEv.callPlay => invokePlay v none s
  | XEv.callPause => invokePause s
  | XEv.settle p o => settleProm p o s
  | XEv.refresh => { initPlayer s with showControls := true }
  | XEv.engineEvent i ev => dispatchEngine v i ev s
  | XEv.hlsArrived => { s with hlsReady := true }
  | XEv.sink e =>
      match e with
      | SinkEv.evPlay => { s with isPlaying := true, isBuffering := false }
      | SinkEv.evPause => { s with isPlaying := false }
      | SinkEv.evWaiting => { s with isBuffering := true }
      | SinkEv.evPlaying => { s with isBuffering := false }

/-- Run one microtask. Resuming `kPlayPrior` with a fulfilled outcome
executes the play-issuing segment; any rejection enters the catch block.
Resuming `kPlayOwn` with a fulfilled outcome executes
`playPromiseRef.current = null` and completes `safePlay`; a rejection
enters the catch block. Resuming `kPause` executes `video.pause()` and
completes `safePause` regardless of the awaited outcome (the try/catch
around the await ignores failures). `onReject` runs the variant specific
`.catch` reaction. -/
def stepMT (v : Variant) (s : St) : MT → St
  | MT.resume (K.kPlayPrior h _) o =>
      match o with
      | Outcome.fulfilled => issuePlay h s
      | e => catchPlay v h e s
  | MT.resume (K.kPlayOwn h _) o =>
      match o with
      | Outcome.fulfilled => emit { s with slot := none } [Ev.playResolved]
      | e => catchPlay v h e s
  | MT.resume (K.kPause _) _ => emit s [Ev.sinkPause, Ev.pauseResolved]
  | MT.onReject h e =>
      match h with
      | Handler.showCtrls => { s with showControls := true }
      | Handler.muteRetry => invokePlay v none { s with sinkMuted := true }

/-- Pop and run the front microtask, if any. -/
def stepMicro (v : Variant) (s : St) : St :=
  match s.queue with
  | [] => s
  | m :: rest => stepMT v { s with queue := rest } m

/-- Schedule entries: an external event, or running one microtask. -/
inductive Act
  | ext (e : XEv)
  | micro
deriving DecidableEq, Repr

/-- One scheduled step. -/
def stepAct (v : Variant) (s : St) : Act → St
  | Act.ext e => stepX v s e
  | Act.micro => stepMicro v s

/-- Initial state after mount: no promises, empty queue, empty slot, sink
attached, controls shown, buffering indicator on, HLS library not yet
detected, no engine. The tsx variant renders the video element with
`muted={isMuted}` and `isMuted` initialized to true, so its sink starts
muted; the p0 variant renders no muted attribute. -/
def initSt (v : Variant) : St :=
  { promises := [], queue := [], slot := none, videoAttached := true,
    sinkMuted := match v with | .tsx => true | .p0 => false,
    showControls := true, isPlaying := false, isBuffering := true,
    hlsReady := false, engines := [], current := none, trace := [] }

/-- Run a schedule from the initial state. -/
def runM (v : Variant) (acts : List Act) : St :=
  acts.foldl (stepAct v) (initSt v)

/-- Reachability under arbitrary schedules. -/
inductive Reach (v : Variant) : St → Prop
  | base : Reach v (initSt v)
  | extStep (s : St) (e : XEv) : Reach v s → Reach v (stepX v s e)
  | microStep (s : St) : Reach v s → Reach v (stepMicro v s)

/-- Status of promise `p` in state `s`. -/
def promStatus (s : St) (p : Nat) : Option PStatus :=
  (s.promises[p]?).map PromInfo.status

/-- Number of sink play calls in a trace. -/
def countPlays (t : List Ev) : Nat :=
  (t.filter fun e => match e with | Ev.sinkPlay _ => true | _ => false).length

/-- Number of sink pause calls in a trace. -/
def countPauses (t : List Ev) : Nat :=
  (t.filter fun e => match e with | Ev.sinkPause => true | _ => false).length

/-- Number of console.error log entries in a trace. -/
def errCount (t : List Ev) : Nat :=
  (t.filter fun e => match e with | Ev.logError _ => true | _ => false).length

/-!
Timer model for the controls auto-hide logic: `handleActivity` sets
`showControls` to true and calls `hideControlsAfterDelay`, which cancels
any pending timeout and arms a fresh single-shot timeout of 5 time-units
(5000 ms at 1000 ms per unit) that sets `showControls` to false.
-/

/-- Timer state: the simulated clock, the controls visibility, and the
pending timeout deadline (`controlsTimeoutRef`), if armed. -/
structure TSt where
  now : Nat
  showControls : Bool
  timeout : Option Nat
deriving DecidableEq, Repr

/-- Timer events: a recognized user interaction, or the clock advancing
by one time-unit. -/
inductive TEv
  | interact
  | advance
deriving DecidableEq, Repr

/-- `interact` is `handleActivity`: `setShowControls(true)` followed by
`hideControlsAfterDelay` (clear any pending timeout, arm a new one for
5 units from now). `advance` moves the clock one unit and fires the
timeout callback (`setShowControls(false)`) when the deadline is
reached. -/
def tstep (s : TSt) : TEv → TSt
  | TEv.interact => { s with showControls := true, timeout := some (s.now + 5) }
  | TEv.advance =>
      match s.timeout with
      | some t =>
          if t ≤ s.now + 1 then { now := s.now + 1, showControls := false, timeout := none }
          else { s with now := s.now + 1 }
      | none => { s with now := s.now + 1 }

/-- Run a list of timer events. -/
def tRun (s : TSt) (es : List TEv) : TSt :=
  es.foldl tstep s

/-- `k` clock advances. -/
def advances (k : Nat) : List TEv :=
  List.replicate k TEv.advance

/-- Timer state at mount: clock zero, controls shown, no timeout armed. -/
def t0 : TSt :=
  { now := 0, showControls := true, timeout := none }

/-!
Concrete schedules and states used to settle individual claims.
-/

/-- Three overlapping safePlay calls, the first play promise fulfills and
the three queued continuations run; then safePause is called and the
newest play promise (id 2) fulfills, letting the pause continuation run
while promise 1 is still unsettled. -/
def schedC1 : List Act :=
  [Act.ext XEv.callPlay, Act.ext XEv.callPlay, Act.ext XEv.callPlay,
   Act.ext (XEv.settle 0 Outcome.fulfilled), Act.micro, Act.micro, Act.micro,
   Act.ext XEv.callPause, Act.ext (XEv.settle 2 Outcome.fulfilled), Act.micro, Act.micro]

/-- Three overlapping safePlay calls and the settlement of the first play
promise: the two waiting continuations each issue their own play request. -/
def schedC2 : List Act :=
  [Act.ext XEv.callPlay, Act.ext XEv.callPlay, Act.ext XEv.callPlay,
   Act.ext (XEv.settle 0 Outcome.fulfilled), Act.micro, Act.micro, Act.micro]

/-- The autoplay-policy scenario on the p0 variant: the library arrives,
the session starts, MANIFEST_PARSED fires and the resulting play promise
rejects with NotAllowedError. -/
def schedC4 : List Act :=
  [Act.ext XEv.hlsArrived, Act.ext XEv.refresh,
   Act.ext (XEv.engineEvent 0 EngEv.manifestParsed),
   Act.ext (XEv.settle 0 Outcome.notAllowedError), Act.micro]

/-- Two overlapping safePlay calls whose shared prior promise rejects. -/
def schedC6 : List Act :=
  [Act.ext XEv.callPlay, Act.ext XEv.callPlay,
   Act.ext (XEv.settle 0 Outcome.otherError), Act.micro, Act.micro]

/-- A single safePlay call whose play promise rejects. -/
def schedC10 : List Act :=
  [Act.ext XEv.callPlay, Act.ext (XEv.settle 0 Outcome.otherError), Act.micro]

/-- A session with one live engine (id 0), used for the refresh claim. -/
def stC3 : St :=
  runM Variant.tsx [Act.ext XEv.hlsArrived, Act.ext XEv.refresh]

/-- A session with one live engine (id 0), used for the error-policy
claim. -/
def stC5 : St :=
  runM Variant.tsx [Act.ext XEv.hlsArrived, Act.ext XEv.refresh]

/-- A state with no media sink attached. -/
def stC9 : St :=
  { initSt Variant.tsx with videoAttached := false }

/-!
Serializer invariant: every queued resume microtask carries the outcome
of an already settled promise, and waiter lists only hang off pending
promises and only hold continuations for that same promise.
-/

/-- Queue half of the invariant: a continuation is only queued for
resumption once the promise it awaited has settled, with that outcome. -/
def InvQ (s : St) : Prop :=
  ∀ k o, MT.resume k o ∈ s.queue → promStatus s (K.pid k) = some (PStatus.settled o)

/-- Waiter half of the invariant: waiters are registered only on the
promise they await, and only while it is pending. -/
def InvW (s : St) : Prop :=
  ∀ p pi, s.promises[p]? = some pi →
    ∀ k, k ∈ pi.waiters → K.pid k = p ∧ pi.status = PStatus.pending

/-- The serializer invariant. -/
def Inv (s : St) : Prop :=
  InvQ s ∧ InvW s

/-! Helper lemmas. -/

theorem countPlays_append (t u : List Ev) : countPlays (t ++ u) = countPlays t + countPlays u := by
  simp [countPlays, List.filter_append]

theorem countPauses_append (t u : List Ev) : countPauses (t ++ u) = countPauses t + countPauses u := by
  simp [countPauses, List.filter_append]

theorem errCount_append (t u : List Ev) : errCount (t ++ u) = errCount t + errCount u := by
  simp [errCount, List.filter_append]

theorem tRun_cons (s : TSt) (e : TEv) (es : List TEv) : tRun s (e :: es) = tRun (tstep s e) es :=
  rfl

theorem tAdv_none (k : Nat) : ∀ s : TSt, s.timeout = none →
    (tRun s (advances k)).showControls = s.showControls ∧
    (tRun s (advances k)).timeout = none ∧
    (tRun s (advances k)).now = s.now + k := by
  induction k with
  | zero => intro s h; simp [tRun, advances, h]
  | succ n ih =>
      intro s h
      rw [advances, List.replicate_succ, tRun_cons]
      have hstep : tstep s TEv.advance = { s with now := s.now + 1 } := by
        simp [tstep, h]
      rw [hstep]
      obtain ⟨a, b, c⟩ := ih { s with now := s.now + 1 } h
      refine ⟨a, b, ?_⟩
      rw [advances] at c
      rw [c]
      show s.now + 1 + n = s.now + (n + 1)
      omega

theorem tAdv_keep (k : Nat) : ∀ (s : TSt) (t : Nat), s.timeout = some t → s.now + k < t →
    (tRun s (advances k)).showControls = s.showControls ∧
    (tRun s (advances k)).timeout = some t ∧
    (tRun s (advances k)).now = s.now + k := by
  induction k with
  | zero => intro s t h _; simp [tRun, advances, h]
  | succ n ih =>
      intro s t h hlt
      rw [advances, List.replicate_succ, tRun_cons]
      have hne : ¬ t ≤ s.now + 1 := by omega
      have hstep : tstep s TEv.advance = { s with now := s.now + 1 } := by
        simp [tstep, h, hne]
      rw [hstep]
      obtain ⟨a, b, c⟩ := ih { s with now := s.now + 1 } t h (by show s.now + 1 + n < t; omega)
      refine ⟨a, b, ?_⟩
      rw [advances] at c
      rw [c]
      show s.now + 1 + n = s.now + (n + 1)
      omega

theorem tAdv_fire (k : Nat) : ∀ (s : TSt) (t : Nat), s.timeout = some t → s.now < t →
    t ≤ s.now + k →
    (tRun s (advances k)).showControls = false ∧
    (tRun s (advances k)).timeout = none := by
  induction k with
  | zero => intro s t h h1 h2; omega
  | succ n ih =>
      intro s t h h1 h2
      rw [advances, List.replicate_succ, tRun_cons]
      by_cases hf : t ≤ s.now + 1
      · have hstep : tstep s TEv.advance
            = { now := s.now + 1, showControls := false, timeout := none } := by
          simp [tstep, h, hf]
        rw [hstep]
        obtain ⟨a, b, _⟩ := tAdv_none n
          { now := s.now + 1, showControls := false, timeout := none } rfl
        exact ⟨a, b⟩
      · have hstep : tstep s TEv.advance = { s with now := s.now + 1 } := by
          simp [tstep, h, hf]
        rw [hstep]
        exact ih { s with now := s.now + 1 } t h (by show s.now + 1 < t; omega)
          (by show t ≤ s.now + 1 + n; omega)

/-! Preservation of the serializer invariant. -/

theorem inv_same {s sq : St} (hp : sq.promises = s.promises) (hq : sq.queue = s.queue)
    (h : Inv s) : Inv sq := by
  obtain ⟨h1, h2⟩ := h
  constructor
  · intro k o hm
    rw [hq] at hm
    have := h1 k o hm
    rw [promStatus, hp]
    rw [promStatus] at this
    exact this
  · intro p pi hpi
    rw [hp] at hpi
    exact h2 p pi hpi

theorem inv_enq_onReject {s : St} (h : Inv s) (hh : Handler) (e : Outcome) :
    Inv (enq s (MT.onReject hh e)) := by
  obtain ⟨h1, h2⟩ := h
  constructor
  · intro k o hm
    simp only [enq, List.mem_append, List.mem_singleton] at hm
    rcases hm with hm | hm
    · have := h1 k o hm
      rw [promStatus] at this ⊢
      exact this
    · exact absurd hm (by simp)
  · intro p pi hpi
    exact h2 p pi hpi

theorem inv_enq_resume {s : St} {k : K} {o : Outcome}
    (hst : promStatus s (K.pid k) = some (PStatus.settled o)) (h : Inv s) :
    Inv (enq s (MT.resume k o)) := by
  obtain ⟨h1, h2⟩ := h
  constructor
  · intro k1 o1 hm
    simp only [enq, List.mem_append, List.mem_singleton] at hm
    rcases hm with hm | hm
    · have := h1 k1 o1 hm
      rw [promStatus] at this ⊢
      exact this
    · injection hm with e1 e2
      subst e1; subst e2
      rw [promStatus] at hst ⊢
      exact hst
  · intro p pi hpi
    exact h2 p pi hpi

theorem inv_set_waiters {s : St} {p : Nat} {pi : PromInfo} {k : K}
    (hpi : s.promises[p]? = some pi) (hpend : pi.status = PStatus.pending)
    (hk : K.pid k = p) (h : Inv s) :
    Inv { s with promises := s.promises.set p ⟨pi.status, pi.waiters ++ [k]⟩ } := by
  obtain ⟨h1, h2⟩ := h
  have hlt : p < s.promises.length := by
    rcases List.getElem?_eq_some_iff.mp hpi with ⟨hl, _⟩
    exact hl
  constructor
  · intro k1 o1 hm
    have hst := h1 k1 o1 hm
    have hne : p ≠ K.pid k1 := by
      intro hEq
      rw [promStatus, ← hEq, hpi] at hst
      simp [hpend] at hst
    rw [promStatus]
    show ((s.promises.set p ⟨pi.status, pi.waiters ++ [k]⟩)[K.pid k1]?).map PromInfo.status = _
    rw [List.getElem?_set_ne hne]
    rw [promStatus] at hst
    exact hst
  · intro q qi hqi k1 hk1
    by_cases hq : q = p
    · subst hq
      rw [List.getElem?_set_self hlt] at hqi
      injection hqi with hqi
      subst hqi
      simp only [List.mem_append, List.mem_singleton] at hk1
      rcases hk1 with hk1 | hk1
      · obtain ⟨a, b⟩ := h2 q pi hpi k1 hk1
        exact ⟨a, b⟩
      · subst hk1
        exact ⟨hk, hpend⟩
    · rw [List.getElem?_set_ne (fun hEq => hq hEq.symm)] at hqi
      exact h2 q qi hqi k1 hk1

theorem inv_addWaiter {s : St} {p : Nat} {pi : PromInfo} {k : K}
    (hpi : s.promises[p]? = some pi) (hpend : pi.status = PStatus.pending)
    (hk : K.pid k = p) (h : Inv s) : Inv (addWaiter s p k) := by
  unfold addWaiter
  rw [hpi]
  exact inv_set_waiters hpi hpend hk h

theorem inv_issuePlay {s : St} (h : Inv s) (hh : Option Handler) : Inv (issuePlay hh s) := by
  obtain ⟨h1, h2⟩ := h
  constructor
  · intro k o hm
    have hst := h1 k o hm
    have hlt : K.pid k < s.promises.length := by
      rw [promStatus] at hst
      rcases heq : s.promises[K.pid k]? with _ | pi
      · rw [heq] at hst; cases hst
      · rcases List.getElem?_eq_some_iff.mp heq with ⟨hl, _⟩
        exact hl
    rw [promStatus]
    show ((s.promises ++ [⟨PStatus.pending, [K.kPlayOwn hh s.promises.length]⟩])[K.pid k]?).map
        PromInfo.status = _
    rw [List.getElem?_append_left hlt]
    rw [promStatus] at hst
    exact hst
  · intro p pi hpi k hk
    have hpi2 : (s.promises ++ [⟨PStatus.pending, [K.kPlayOwn hh s.promises.length]⟩])[p]?
        = some pi := hpi
    rcases Nat.lt_trichotomy p s.promises.length with hlt | heqn | hgt
    · rw [List.getElem?_append_left hlt] at hpi2
      exact h2 p pi hpi2 k hk
    · subst heqn
      rw [List.getElem?_concat_length] at hpi2
      injection hpi2 with hpi2
      subst hpi2
      simp only [List.mem_singleton] at hk
      subst hk
      exact ⟨rfl, rfl⟩
    · rw [List.getElem?_append_right (Nat.le_of_lt hgt)] at hpi2
      have hx : p - s.promises.length = (p - s.promises.length - 1) + 1 := by omega
      rw [hx] at hpi2
      simp at hpi2

theorem inv_settle {s : St} (h : Inv s) (p : Nat) (o : Outcome) : Inv (settleProm p o s) := by
  obtain ⟨h1, h2⟩ := h
  unfold settleProm
  split
  next pi heq =>
    split
    next hstq =>
      have hlt : p < s.promises.length := by
        rcases List.getElem?_eq_some_iff.mp heq with ⟨hl, _⟩
        exact hl
      constructor
      · intro k1 o1 hm
        simp only [List.mem_append] at hm
        rcases hm with hm | hm
        · have hst := h1 k1 o1 hm
          have hne : p ≠ K.pid k1 := by
            intro hEq
            rw [promStatus, ← hEq, heq] at hst
            simp [hstq] at hst
          rw [promStatus]
          show ((s.promises.set p ⟨PStatus.settled o, []⟩)[K.pid k1]?).map PromInfo.status = _
          rw [List.getElem?_set_ne hne]
          rw [promStatus] at hst
          exact hst
        · rw [List.mem_map] at hm
          obtain ⟨k0, hk0, hEq⟩ := hm
          injection hEq with e1 e2
          subst e1; subst e2
          obtain ⟨hpid, _⟩ := h2 p pi heq k0 hk0
          rw [promStatus, hpid]
          show ((s.promises.set p ⟨PStatus.settled o, []⟩)[p]?).map PromInfo.status = _
          rw [List.getElem?_set_self hlt]
          rfl
      · intro q qi hqi k hk
        by_cases hq : q = p
        · subst hq
          have hqi2 : (s.promises.set q ⟨PStatus.settled o, []⟩)[q]? = some qi := hqi
          rw [List.getElem?_set_self hlt] at hqi2
          injection hqi2 with hqi2
          subst hqi2
          simp at hk
        · have hqi2 : (s.promises.set p ⟨PStatus.settled o, []⟩)[q]? = some qi := hqi
          rw [List.getElem?_set_ne (fun hEq => hq hEq.symm)] at hqi2
          exact h2 q qi hqi2 k hk
    next o1 hstq => exact ⟨h1, h2⟩
  next heq => exact ⟨h1, h2⟩

theorem inv_invokePlay {s : St} (h : Inv s) (v : Variant) (hh : Option Handler) :
    Inv (invokePlay v hh s) := by
  unfold invokePlay
  split
  next hA => exact inv_same rfl rfl h
  next hA =>
    split
    next p hs =>
      split
      next pi heq =>
        split
        next hstq => exact inv_addWaiter heq hstq rfl h
        next o1 hstq =>
          refine inv_enq_resume ?_ h
          show promStatus s p = _
          rw [promStatus, heq]
          simp [hstq]
      next heq => exact inv_issuePlay h hh
    next hs => exact inv_issuePlay h hh

theorem inv_invokePause {s : St} (h : Inv s) : Inv (invokePause s) := by
  unfold invokePause
  split
  next hA => exact inv_same rfl rfl h
  next hA =>
    split
    next p hs =>
      split
      next pi heq =>
        split
        next hstq => exact inv_addWaiter heq hstq rfl h
        next o1 hstq =>
          refine inv_enq_resume ?_ h
          show promStatus s p = _
          rw [promStatus, heq]
          simp [hstq]
      next heq => exact inv_same rfl rfl h
    next hs => exact inv_same rfl rfl h

theorem inv_catchPlay {s : St} (h : Inv s) (v : Variant) (hh : Option Handler) (e : Outcome) :
    Inv (catchPlay v hh e s) := by
  unfold catchPlay
  cases v
  · cases hh
    · exact inv_same rfl rfl h
    · exact inv_enq_onReject (inv_same rfl rfl h) _ _
  · exact inv_same rfl rfl h

theorem promises_initPlayer (s : St) : (initPlayer s).promises = s.promises := by
  unfold initPlayer createEngine destroyCurrent
  split
  · rfl
  · split <;> rfl

theorem queue_initPlayer (s : St) : (initPlayer s).queue = s.queue := by
  unfold initPlayer createEngine destroyCurrent
  split
  · rfl
  · split <;> rfl

theorem inv_stepMT {s : St} (h : Inv s) (v : Variant) (m : MT) : Inv (stepMT v s m) := by
  unfold stepMT
  split
  · split
    · exact inv_issuePlay h _
    · exact inv_catchPlay h v _ _
  · split
    · exact inv_same rfl rfl h
    · exact inv_catchPlay h v _ _
  · exact inv_same rfl rfl h
  · split
    · exact inv_same rfl rfl h
    · refine inv_invokePlay ?_ v none
      exact inv_same rfl rfl h

theorem inv_stepMicro {s : St} (h : Inv s) (v : Variant) : Inv (stepMicro v s) := by
  unfold stepMicro
  split
  · exact h
  next m rest hq =>
    refine inv_stepMT ?_ v m
    obtain ⟨h1, h2⟩ := h
    constructor
    · intro k o hm
      have hmem : MT.resume k o ∈ s.queue := by
        rw [hq]
        exact List.mem_cons_of_mem _ hm
      have := h1 k o hmem
      rw [promStatus] at this ⊢
      exact this
    · intro p pi hpi
      exact h2 p pi hpi

theorem inv_stepX {s : St} (h : Inv s) (v : Variant) (e : XEv) : Inv (stepX v s e) := by
  rcases e with _ | _ | ⟨p, o⟩ | _ | ⟨i, ev⟩ | _ | se
  · exact inv_invokePlay h v none
  · exact inv_invokePause h
  · exact inv_settle h p o
  · exact inv_same (promises_initPlayer s) (queue_initPlayer s) h
  · show Inv (dispatchEngine v i ev s)
    unfold dispatchEngine
    split
    · exact h
    · split
      · exact inv_invokePlay h v _
      · split
        · exact h
        · split
          · exact inv_same rfl rfl h
          · exact inv_same rfl rfl h
          · exact inv_same (promises_initPlayer _) (queue_initPlayer _) h
  · exact inv_same rfl rfl h
  · rcases se with _ | _ | _ | _ <;> exact inv_same rfl rfl h

theorem reach_inv {v : Variant} {s : St} (h : Reach v s) : Inv s := by
  induction h with
  | base =>
      constructor
      · intro k o hm
        simp [initSt] at hm
      · intro p pi hpi
        simp [initSt] at hpi
  | extStep s e _ ih => exact inv_stepX ih v e
  | microStep s _ ih => exact inv_stepMicro ih v

/-! Claim theorems. -/

/-- Claim C1, counterexample. The claim states that under every
interleaving the sink never receives pause() while a prior play() outcome
is unsettled. In this schedule three safePlay calls overlap: the second
and third both await play promise 0, and on its fulfillment each issues
its own play request (promises 1 and 2), with only promise 2 tracked in
the slot. safePause then awaits promise 2 only, and once promise 2
settles, pause() reaches the sink while play promise 1 — issued before
the pause — is still pending. -/
theorem claimC1_cex :
    (runM Variant.tsx schedC1).trace
      = [Ev.sinkPlay 0, Ev.playResolved, Ev.sinkPlay 1, Ev.sinkPlay 2, Ev.playResolved,
         Ev.sinkPause, Ev.pauseResolved] ∧
    promStatus (runM Variant.tsx schedC1) 1 = some PStatus.pending := by
  decide

/-- Claim C1, amended: safePause always awaits the play promise recorded
in the pending slot at its invocation, ignoring its failure, before
calling pause(). Formally: (a) in every reachable state, a queued resume
continuation — in particular the pause continuation — exists only for a
promise that has already settled, with that outcome; (b) invoking
safePause while the tracked slot promise is pending emits no sink call
and queues nothing, so pause() is deferred until that promise settles.
The original universal claim fails (see the counterexample) because with
three or more overlapping safePlay calls a play promise not tracked by
the slot can remain unsettled when pause() is finally issued. -/
theorem claimC1_amended (v : Variant) (s : St) (hr : Reach v s) :
    (∀ k o, MT.resume k o ∈ s.queue → promStatus s (K.pid k) = some (PStatus.settled o)) ∧
    (∀ p, s.videoAttached = true → s.slot = some p → promStatus s p = some PStatus.pending →
      (stepX v s XEv.callPause).trace = s.trace ∧
      (stepX v s XEv.callPause).queue = s.queue) := by
  refine ⟨(reach_inv hr).1, ?_⟩
  intro p hA hs hpend
  show (invokePause s).trace = s.trace ∧ (invokePause s).queue = s.queue
  unfold invokePause
  split
  next hA2 => rw [hA] at hA2; simp at hA2
  next hA2 =>
    split
    next p2 hs2 =>
      rw [hs] at hs2
      injection hs2 with hp
      subst hp
      split
      next pi heq =>
        split
        next hstq =>
          unfold addWaiter
          rw [heq]
          exact ⟨rfl, rfl⟩
        next o1 hstq =>
          rw [promStatus, heq] at hpend
          simp [hstq] at hpend
      next heq =>
        rw [promStatus, heq] at hpend
        simp at hpend
    next hs2 =>
      rw [hs] at hs2
      simp at hs2

theorem claimC1_witness :
    (stepX Variant.tsx (stepX Variant.tsx (initSt Variant.tsx) XEv.callPlay) XEv.callPause).trace
      = (stepX Variant.tsx (initSt Variant.tsx) XEv.callPlay).trace ∧
    (stepX Variant.tsx (stepX Variant.tsx (initSt Variant.tsx) XEv.callPlay) XEv.callPause).queue
      = (stepX Variant.tsx (initSt Variant.tsx) XEv.callPlay).queue :=
  (claimC1_amended Variant.tsx (stepX Variant.tsx (initSt Variant.tsx) XEv.callPlay)
      (Reach.extStep _ _ Reach.base)).2 0 (by decide) (by decide) (by decide)

/-- Claim C2, counterexample. The claim states that at every instant
there is at most one outstanding pending play outcome. After three
overlapping safePlay calls and the fulfillment of the first play promise,
the two waiting continuations each issue their own play request: play
promises 1 and 2 are pending at the same instant, and only promise 2 is
tracked in the slot. -/
theorem claimC2_cex :
    (runM Variant.tsx schedC2).trace
      = [Ev.sinkPlay 0, Ev.playResolved, Ev.sinkPlay 1, Ev.sinkPlay 2] ∧
    promStatus (runM Variant.tsx schedC2) 1 = some PStatus.pending ∧
    promStatus (runM Variant.tsx schedC2) 2 = some PStatus.pending ∧
    (runM Variant.tsx schedC2).slot = some 2 := by
  decide

/-- Claim C2, amended: the playPromiseRef slot tracks at most one promise
and every settlement path of safePlay clears it — resuming safePlay after
its own play promise settles (fulfilled or rejected with any error, abort
included) leaves the slot empty, as does resuming after a rejected prior
promise — so a failed play never leaves a stale tracked promise that
would block later safePlay/safePause calls. The further conjunct of the
original claim, that at most one sink play outcome is outstanding at any
instant, fails (see the counterexample). -/
theorem claimC2_amended (v : Variant) (s : St) (h : Option Handler) (p : Nat) :
    (∀ e, e ≠ Outcome.fulfilled →
        (stepMT v s (MT.resume (K.kPlayOwn h p) e)).slot = none ∧
        (stepMT v s (MT.resume (K.kPlayPrior h p) e)).slot = none) ∧
    (stepMT v s (MT.resume (K.kPlayOwn h p) Outcome.fulfilled)).slot = none := by
  constructor
  · intro e he
    rcases e with _ | _ | _ | _
    · exact absurd rfl he
    all_goals cases v <;> cases h <;> exact ⟨rfl, rfl⟩
  · rfl

theorem claimC2_witness :
    (stepMT Variant.tsx (initSt Variant.tsx)
        (MT.resume (K.kPlayOwn none 0) Outcome.abortError)).slot = none ∧
    (stepMT Variant.tsx (initSt Variant.tsx)
        (MT.resume (K.kPlayPrior none 0) Outcome.abortError)).slot = none :=
  (claimC2_amended Variant.tsx (initSt Variant.tsx) none 0).1 Outcome.abortError (by decide)

/-- Claim C3, counterexample. The claim states that refresh() always
performs the full destroy-and-recreate path regardless of current state,
incrementing the generation on every refresh. But initPlayer returns
early when the HLS library is not yet ready
(`if (!hlsReady || !videoRef.current) return`): a refresh in the initial
state creates no engine and changes nothing. -/
theorem claimC3_cex :
    stepX Variant.tsx (initSt Variant.tsx) XEv.refresh = initSt Variant.tsx ∧
    (initSt Variant.tsx).engines = [] ∧
    (initSt Variant.tsx).hlsReady = false := by
  decide

/-- Claim C3, amended: once the HLS library is ready and a sink is
attached, refresh() always performs the full destroy-and-recreate path:
the old engine, when present, is destroyed strictly before the new one is
created, loaded and attached; the new engine receives a fresh id equal to
the count of engines ever created (ids thus grow monotonically across
refreshes, playing the role of the generation counter); and any event
arriving from a discarded (destroyed) engine is ignored entirely, leaving
the state untouched. When the library is not ready or no sink is
attached, refresh is a no-op apart from showing the controls. -/
theorem claimC3_amended (v : Variant) (s : St) (hr : s.hlsReady = true)
    (ha : s.videoAttached = true) :
    (stepX v s XEv.refresh).current = some s.engines.length ∧
    (stepX v s XEv.refresh).engines.length = s.engines.length + 1 ∧
    (s.current = none → (stepX v s XEv.refresh).trace
        = s.trace ++ [Ev.engineCreated s.engines.length, Ev.loadSource s.engines.length,
            Ev.attachMedia s.engines.length]) ∧
    (∀ old, s.current = some old → old < s.engines.length →
        (stepX v s XEv.refresh).trace
          = s.trace ++ [Ev.engineDestroyed old, Ev.engineCreated s.engines.length,
              Ev.loadSource s.engines.length, Ev.attachMedia s.engines.length] ∧
        (stepX v s XEv.refresh).engines[old]? = some true) ∧
    (∀ i ev, engineLive s i = false → stepX v s (XEv.engineEvent i ev) = s) := by
  have hinit : initPlayer s = createEngine (destroyCurrent s) := by
    unfold initPlayer
    rw [if_neg (by simp [hr, ha])]
  refine ⟨?_, ?_, ?_, ?_, ?_⟩
  · show (initPlayer s).current = some s.engines.length
    rw [hinit]
    rcases hc : s.current with _ | old <;>
      simp [createEngine, destroyCurrent, hc]
  · show (initPlayer s).engines.length = s.engines.length + 1
    rw [hinit]
    rcases hc : s.current with _ | old <;>
      simp [createEngine, destroyCurrent, hc]
  · intro hc
    show (initPlayer s).trace = _
    rw [hinit]
    simp [createEngine, destroyCurrent, hc]
  · intro old hc hlt
    constructor
    · show (initPlayer s).trace = _
      rw [hinit]
      simp [createEngine, destroyCurrent, hc]
    · show (initPlayer s).engines[old]? = some true
      rw [hinit]
      have hd : (destroyCurrent s).engines = s.engines.set old true := by
        unfold destroyCurrent
        rw [hc]
      show ((destroyCurrent s).engines ++ [false])[old]? = some true
      rw [hd]
      rw [List.getElem?_append_left (by simpa using hlt)]
      rw [List.getElem?_set_self hlt]
  · intro i ev hl
    show dispatchEngine v i ev s = s
    unfold dispatchEngine
    rw [if_pos hl]

theorem claimC3_witness :
    (stepX Variant.tsx stC3 XEv.refresh).current = some stC3.engines.length ∧
    (stepX Variant.tsx stC3 XEv.refresh).engines.length = stC3.engines.length + 1 :=
  ⟨(claimC3_amended Variant.tsx stC3 (by decide) (by decide)).1,
   (claimC3_amended Variant.tsx stC3 (by decide) (by decide)).2.1⟩

/-- Claim C4, evaluation of the code at the failing input. After
MANIFEST_PARSED the p0 variant calls
`safePlay().catch(() => { video.muted = true; safePlay(); })`, intending
to mute and retry on an autoplay-policy rejection. But the p0 safePlay
swallows every rejection inside its own catch block and always fulfills,
so the attached fallback can never fire: when the play promise rejects
with NotAllowedError, the error is merely logged, the sink is never
muted, no second play request is issued, and nothing remains queued. The
tsx variant has no mute-and-retry at all (its handler only forces
controls visible on the first failure). -/
theorem claimC4_bug_eval :
    (runM Variant.p0 schedC4).trace
      = [Ev.engineCreated 0, Ev.loadSource 0, Ev.attachMedia 0, Ev.sinkPlay 0,
         Ev.logError Outcome.notAllowedError, Ev.playResolved] ∧
    (runM Variant.p0 schedC4).sinkMuted = false ∧
    (runM Variant.p0 schedC4).queue = [] ∧
    countPlays (runM Variant.p0 schedC4).trace = 1 := by
  decide

/-- Claim C5: the fatal-error recovery policy of the ERROR handler. For a
live engine: a fatal NETWORK error calls startLoad on that engine and
neither destroys nor creates any engine; a fatal MEDIA error calls
recoverMediaError likewise; a non-fatal error changes nothing at all;
and a fatal error of any other category destroys the current engine and
re-runs the full create-load-attach path exactly once, attaching a fresh
engine. -/
theorem claimC5_error_policy (v : Variant) (s : St) (i : Nat) (hl : engineLive s i = true) :
    ((stepX v s (XEv.engineEvent i (EngEv.errorEv true ErrT.network))).trace
        = s.trace ++ warnOf v ++ [Ev.startLoad i] ∧
      (stepX v s (XEv.engineEvent i (EngEv.errorEv true ErrT.network))).engines = s.engines ∧
      (stepX v s (XEv.engineEvent i (EngEv.errorEv true ErrT.network))).current = s.current) ∧
    ((stepX v s (XEv.engineEvent i (EngEv.errorEv true ErrT.media))).trace
        = s.trace ++ warnOf v ++ [Ev.recoverMediaError i] ∧
      (stepX v s (XEv.engineEvent i (EngEv.errorEv true ErrT.media))).engines = s.engines ∧
      (stepX v s (XEv.engineEvent i (EngEv.errorEv true ErrT.media))).current = s.current) ∧
    (∀ t, stepX v s (XEv.engineEvent i (EngEv.errorEv false t)) = s) ∧
    (s.current = some i → s.hlsReady = true → s.videoAttached = true →
      (stepX v s (XEv.engineEvent i (EngEv.errorEv true ErrT.other))).trace
        = s.trace ++ warnOf v ++ [Ev.engineDestroyed i, Ev.engineCreated s.engines.length,
            Ev.loadSource s.engines.length, Ev.attachMedia s.engines.length] ∧
      (stepX v s (XEv.engineEvent i (EngEv.errorEv true ErrT.other))).current
        = some s.engines.length ∧
      (stepX v s (XEv.engineEvent i (EngEv.errorEv true ErrT.other))).engines.length
        = s.engines.length + 1) := by
  have hlf : ¬ engineLive s i = false := by simp [hl]
  refine ⟨⟨?_, ?_, ?_⟩, ⟨?_, ?_, ?_⟩, ?_, ?_⟩
  · simp [stepX, dispatchEngine, hlf, emit]
  · simp [stepX, dispatchEngine, hlf, emit]
  · simp [stepX, dispatchEngine, hlf, emit]
  · simp [stepX, dispatchEngine, hlf, emit]
  · simp [stepX, dispatchEngine, hlf, emit]
  · simp [stepX, dispatchEngine, hlf, emit]
  · intro t
    simp [stepX, dispatchEngine, hlf]
  · intro hc hr ha
    refine ⟨?_, ?_, ?_⟩ <;>
      simp [stepX, dispatchEngine, hlf, emit, initPlayer, createEngine, destroyCurrent,
        hc, hr, ha]

theorem claimC5_witness :
    (stepX Variant.tsx stC5 (XEv.engineEvent 0 (EngEv.errorEv true ErrT.network))).trace
      = stC5.trace ++ warnOf Variant.tsx ++ [Ev.startLoad 0] :=
  (claimC5_error_policy Variant.tsx stC5 0 (by decide)).1.1

/-- Claim C6, counterexample. The claim states that when a prior play
outcome is pending, safePlay awaits it swallowing its failure and then in
every case issues a new play request. In this schedule the second
safePlay call awaits play promise 0, which rejects: because that await
sits inside the try block, the rejection jumps to the catch block and the
second call completes without ever calling video.play() — the trace holds
exactly one sink play call where the claim requires two. -/
theorem claimC6_cex :
    (runM Variant.tsx schedC6).trace
      = [Ev.sinkPlay 0, Ev.logError Outcome.otherError, Ev.playRejected Outcome.otherError,
         Ev.logError Outcome.otherError, Ev.playRejected Outcome.otherError] ∧
    countPlays (runM Variant.tsx schedC6).trace = 1 := by
  decide

/-- Claim C6, amended: when a prior play outcome is pending, safePlay
awaits it; if the prior outcome fulfills, safePlay then issues a new play
request on the sink and records it in the slot; but if the prior outcome
rejects, the rejection enters the catch block, the slot is cleared, and
no new play request is issued (the tsx variant rethrows the prior
failure, the p0 variant only logs it). -/
theorem claimC6_amended (v : Variant) (s : St) (h : Option Handler) (p : Nat) :
    (∀ e, e ≠ Outcome.fulfilled →
        countPlays (stepMT v s (MT.resume (K.kPlayPrior h p) e)).trace = countPlays s.trace ∧
        (stepMT v s (MT.resume (K.kPlayPrior h p) e)).slot = none) ∧
    countPlays (stepMT v s (MT.resume (K.kPlayPrior h p) Outcome.fulfilled)).trace
        = countPlays s.trace + 1 ∧
    (stepMT v s (MT.resume (K.kPlayPrior h p) Outcome.fulfilled)).slot
        = some s.promises.length := by
  refine ⟨?_, ?_, rfl⟩
  · intro e he
    rcases e with _ | _ | _ | _
    · exact absurd rfl he
    all_goals
      cases v <;> cases h <;>
        exact ⟨by simp [stepMT, catchPlay, tsxCatchLog, p0CatchLog, emit, enq,
            countPlays_append, countPlays], rfl⟩
  · show countPlays (s.trace ++ [Ev.sinkPlay s.promises.length]) = countPlays s.trace + 1
    rw [countPlays_append]
    rfl

theorem claimC6_witness :
    countPlays (stepMT Variant.tsx (initSt Variant.tsx)
        (MT.resume (K.kPlayPrior none 0) Outcome.otherError)).trace
      = countPlays (initSt Variant.tsx).trace ∧
    (stepMT Variant.tsx (initSt Variant.tsx)
        (MT.resume (K.kPlayPrior none 0) Outcome.otherError)).slot = none :=
  (claimC6_amended Variant.tsx (initSt Variant.tsx) none 0).1 Outcome.otherError (by decide)

/-- Claim C7: a play outcome that settles with the abort (superseded)
signal is absorbed silently. Resuming either await point of safePlay with
AbortError adds no console.error entry to the trace and leaves isPlaying
untouched, in both variants and regardless of any attached handler; the
settlement step itself likewise changes neither isPlaying nor the trace. -/
theorem claimC7_abort_silent (v : Variant) (s : St) (h : Option Handler) (p : Nat) :
    errCount (stepMT v s (MT.resume (K.kPlayOwn h p) Outcome.abortError)).trace
        = errCount s.trace ∧
    (stepMT v s (MT.resume (K.kPlayOwn h p) Outcome.abortError)).isPlaying = s.isPlaying ∧
    errCount (stepMT v s (MT.resume (K.kPlayPrior h p) Outcome.abortError)).trace
        = errCount s.trace ∧
    (stepMT v s (MT.resume (K.kPlayPrior h p) Outcome.abortError)).isPlaying = s.isPlaying ∧
    (stepX v s (XEv.settle p Outcome.abortError)).isPlaying = s.isPlaying ∧
    (stepX v s (XEv.settle p Outcome.abortError)).trace = s.trace := by
  refine ⟨?_, ?_, ?_, ?_, ?_, ?_⟩
  · cases v <;> cases h <;>
      simp [stepMT, catchPlay, tsxCatchLog, p0CatchLog, emit, enq, errCount_append, errCount]
  · cases v <;> cases h <;> rfl
  · cases v <;> cases h <;>
      simp [stepMT, catchPlay, tsxCatchLog, p0CatchLog, emit, enq, errCount_append, errCount]
  · cases v <;> cases h <;> rfl
  · show (settleProm p Outcome.abortError s).isPlaying = s.isPlaying
    unfold settleProm
    split
    next pi heq => split <;> rfl
    next heq => rfl
  · show (settleProm p Outcome.abortError s).trace = s.trace
    unfold settleProm
    split
    next pi heq => split <;> rfl
    next heq => rfl

/-- Claim C8: on every interaction the controls become visible at once
and a single-shot 5-unit countdown is restarted, cancelling any pending
one; with no further interaction the controls hide exactly 5 units after
the last interaction. In particular: from any state, an interaction
yields visible controls and a deadline 5 units out; for any k below 5 the
controls are still visible k units later, and hidden at exactly 5 units;
concretely, an interaction at t equal 0 hides at t equal 5, and a second
interaction at t equal 3 moves hiding to t equal 8 (still visible at 7),
not t equal 5. -/
theorem claimC8_timer :
    (∀ s : TSt, (tstep s TEv.interact).showControls = true ∧
        (tstep s TEv.interact).timeout = some (s.now + 5)) ∧
    (∀ (s : TSt) (k : Nat), k < 5 →
        (tRun (tstep s TEv.interact) (advances k)).showControls = true) ∧
    (∀ s : TSt, (tRun (tstep s TEv.interact) (advances 5)).showControls = false) ∧
    (tRun t0 ([TEv.interact] ++ advances 4)).showControls = true ∧
    (tRun t0 ([TEv.interact] ++ advances 5)).showControls = false ∧
    (tRun t0 ([TEv.interact] ++ advances 3 ++ [TEv.interact] ++ advances 4)).showControls
        = true ∧
    (tRun t0 ([TEv.interact] ++ advances 3 ++ [TEv.interact] ++ advances 5)).showControls
        = false := by
  refine ⟨fun s => ⟨rfl, rfl⟩, ?_, ?_, by decide, by decide, by decide, by decide⟩
  · intro s k hk
    have h := tAdv_keep k (tstep s TEv.interact) (s.now + 5) rfl
      (by show s.now + k < s.now + 5; omega)
    exact h.1.trans rfl
  · intro s
    have h := tAdv_fire 5 (tstep s TEv.interact) (s.now + 5) rfl
      (by show s.now < s.now + 5; omega) (by show s.now + 5 ≤ s.now + 5; omega)
    exact h.1

theorem claimC8_witness :
    (tRun (tstep t0 TEv.interact) (advances 4)).showControls = true :=
  claimC8_timer.2.1 t0 4 (by decide)

/-- Claim C9: with no media sink attached the null guard
(`if (!video) return`) makes safePlay and safePause complete immediately
as no-ops: the returned promise fulfills, no sink call is issued, the
pending slot, the promise table, the microtask queue and every observable
state field are unchanged. -/
theorem claimC9_no_sink (v : Variant) (s : St) (h : Option Handler)
    (hA : s.videoAttached = false) :
    invokePlay v h s = emit s [Ev.playResolved] ∧
    stepX v s XEv.callPause = emit s [Ev.pauseResolved] ∧
    (stepX v s XEv.callPlay).slot = s.slot ∧
    (stepX v s XEv.callPlay).promises = s.promises ∧
    (stepX v s XEv.callPlay).queue = s.queue ∧
    countPlays (stepX v s XEv.callPlay).trace = countPlays s.trace ∧
    countPauses (stepX v s XEv.callPause).trace = countPauses s.trace ∧
    (stepX v s XEv.callPause).slot = s.slot ∧
    (stepX v s XEv.callPause).promises = s.promises ∧
    (stepX v s XEv.callPlay).isPlaying = s.isPlaying ∧
    (stepX v s XEv.callPause).isPlaying = s.isPlaying ∧
    (stepX v s XEv.callPlay).showControls = s.showControls ∧
    (stepX v s XEv.callPause).showControls = s.showControls := by
  have hp : invokePlay v h s = emit s [Ev.playResolved] := by
    unfold invokePlay
    rw [if_pos hA]
  have hp2 : invokePlay v none s = emit s [Ev.playResolved] := by
    unfold invokePlay
    rw [if_pos hA]
  have hq : invokePause s = emit s [Ev.pauseResolved] := by
    unfold invokePause
    rw [if_pos hA]
  have hxp : stepX v s XEv.callPlay = emit s [Ev.playResolved] := hp2
  have hxq : stepX v s XEv.callPause = emit s [Ev.pauseResolved] := hq
  refine ⟨hp, hxq, ?_, ?_, ?_, ?_, ?_, ?_, ?_, ?_, ?_, ?_, ?_⟩ <;>
    simp [hxp, hxq, emit, countPlays_append, countPauses_append, countPlays, countPauses]

theorem claimC9_witness :
    invokePlay Variant.tsx none stC9 = emit stC9 [Ev.playResolved] :=
  (claimC9_no_sink Variant.tsx stC9 none (by decide)).1

/-- Claim C10: the two variants of safePlay are not equivalent on failing
inputs. Whenever the awaited play promise rejects, the tsx catch block
rethrows — the promise safePlay returns to its caller rejects with the
same error — while the p0 catch block swallows the failure and the
returned promise fulfills. On the concrete run where the sole play
promise rejects with a generic error, the two variants produce different
results for the caller: playRejected in tsx, playResolved in p0. -/
theorem claimC10_variant_divergence (s : St) (h : Option Handler) (p : Nat) :
    (∀ e, e ≠ Outcome.fulfilled →
        (stepMT Variant.tsx s (MT.resume (K.kPlayOwn h p) e)).trace
          = s.trace ++ tsxCatchLog e ++ [Ev.playRejected e] ∧
        (stepMT Variant.p0 s (MT.resume (K.kPlayOwn h p) e)).trace
          = s.trace ++ p0CatchLog e ++ [Ev.playResolved]) ∧
    (runM Variant.tsx schedC10).trace
      = [Ev.sinkPlay 0, Ev.logError Outcome.otherError, Ev.playRejected Outcome.otherError] ∧
    (runM Variant.p0 schedC10).trace
      = [Ev.sinkPlay 0, Ev.logError Outcome.otherError, Ev.playResolved] := by
  refine ⟨?_, by decide, by decide⟩
  intro e he
  rcases e with _ | _ | _ | _
  · exact absurd rfl he
  all_goals
    cases h <;> constructor <;>
      simp [stepMT, catchPlay, emit, enq, List.append_assoc]

theorem claimC10_witness :
    (stepMT Variant.tsx (initSt Variant.tsx)
        (MT.resume (K.kPlayOwn none 0) Outcome.otherError)).trace
      = (initSt Variant.tsx).trace ++ tsxCatchLog Outcome.otherError
          ++ [Ev.playRejected Outcome.otherError] ∧
    (stepMT Variant.p0 (initSt Variant.tsx)
        (MT.resume (K.kPlayOwn none 0) Outcome.otherError)).trace
      = (initSt Variant.tsx).trace ++ p0CatchLog Outcome.otherError ++ [Ev.playResolved] :=
  (claimC10_variant_divergence (initSt Variant.tsx) none 0).1 Outcome.otherError (by decide)

end TopTV
